import Mathlib

/-!
Verification of `project-analyzer.js`.

The program has two parts:
 * `findImportantFiles` — a recursive directory scan that skips deny-listed
   directory names and collects files with allow-listed extensions;
 * `analyzeProject` — builds a text digest from the first 10 collected files
   (at most 50 lines each), writes it, shells out to an external analysis
   command, and on success persists that command's stdout verbatim.

JavaScript strings are modelled as `List Char` (`Str`).  The filesystem seen
by one run is modelled as an inductive tree `Entry` whose constructors also
record the possible I/O failures the code can observe: `statFail` (fs.stat
rejects), `dirFail` (fs.readdir rejects), and `file none` (fs.readFile
rejects).  The effects of `analyzeProject` (files written, warnings and
errors logged) are collected in a `RunResult` record; the external process is
an oracle `Except Str Str` (spawn/exit error, or captured stdout).
-/

abbrev Str := List Char

deriving instance DecidableEq for Except

/-- Model of JavaScript `s.split(sep)` for a one-character separator:
splitting the empty string yields `[""]`, and a trailing separator yields a
trailing empty field, exactly as in JS. -/
def jsSplit (sep : Char) : Str → List Str
  | [] => [[]]
  | c :: cs =>
    match jsSplit sep cs with
    | [] => [[]]
    | line :: restLines =>
      if c = sep then [] :: line :: restLines else (c :: line) :: restLines

/-- Model of `path.join(a, b)` for the fresh name components this program
joins: parent path, separator, child name. -/
def pathJoin (a b : Str) : Str := a ++ [ '/' ] ++ b

/-- `importantExtensions` from `findImportantFiles`. -/
def importantExtensions : List Str :=
  [".js".data, ".ts".data, ".jsx".data, ".tsx".data,
   ".py".data, ".java".data, ".cpp".data, ".go".data]

/-- `ignoreDirs` from `findImportantFiles`. -/
def ignoreDirs : List Str :=
  ["node_modules".data, ".git".data, "dist".data, "build".data]

/-- `importantExtensions.some(ext => item.endsWith(ext))`. -/
def hasImportantExt (item : Str) : Bool :=
  importantExtensions.any (fun ext => ext.isSuffixOf item)

/-- One run's view of a filesystem subtree.  `file (some c)` is a regular
file whose contents read as `c`; `file none` is a regular file whose
`readFile` rejects; `dirFail` is a directory whose `readdir` rejects;
`statFail` is an entry whose `stat` rejects. -/
inductive Entry where
  | file (content : Option Str)
  | dirFail
  | statFail
  | dir (children : List (Str × Entry))

/-- The recursive `scan` of `findImportantFiles`, applied to the listing of
one directory.  For each `(item, entry)` in listing order it stats the item
(statFail aborts the whole scan), recurses into non-deny-listed directories
(a failing `readdir` there aborts), and pushes `fullPath` for files with an
allow-listed extension.  Any error propagates: the result is `Except`, so an
aborted scan returns no list at all. -/
def scanList : List (Str × Entry) → Str → Except Unit (List Str)
  | [], _ => .ok []
  | (item, e) :: rest, currentPath =>
    let fullPath := pathJoin currentPath item
    match e with
    | .statFail => .error ()
    | .dir children =>
        if ignoreDirs.contains item then scanList rest currentPath
        else do
          let sub ← scanList children fullPath
          let rst ← scanList rest currentPath
          .ok (sub ++ rst)
    | .dirFail =>
        if ignoreDirs.contains item then scanList rest currentPath
        else .error ()
    | .file _ =>
        if hasImportantExt item then do
          let rst ← scanList rest currentPath
          .ok (fullPath :: rst)
        else scanList rest currentPath

/-- `findImportantFiles(dir)`: `readdir` the root (failing unless it is a
listable directory) and scan its listing. -/
def findImportantFiles (root : Entry) (dir : Str) : Except Unit (List Str) :=
  match root with
  | .dir children => scanList children dir
  | _ => .error ()

/-- Does the scan encounter an I/O error?  True exactly when some visited
entry has a failing `stat`, or a non-deny-listed visited directory has a
failing `readdir`.  Deny-listed directories are not descended into, so
failures strictly inside them are not encountered. -/
def listingError : List (Str × Entry) → Bool
  | [] => false
  | (item, e) :: rest =>
    (match e with
     | .statFail => true
     | .dirFail => !ignoreDirs.contains item
     | .dir children => !ignoreDirs.contains item && listingError children
     | .file _ => false) || listingError rest

/-- Scan-time error for the whole call: the root must be a listable
directory, and its listing must scan without error. -/
def rootError (root : Entry) : Bool :=
  match root with
  | .dir children => listingError children
  | _ => true

/-- The fixed digest header `"# Анализ проекта\n\n"`. -/
def digestHeader : Str := "# Анализ проекта\n\n".data

/-- One digest section: `## Файл: ${file}` heading, then the first 50 lines
of the content in a fenced block (`content.split('\n').slice(0, 50).join('\n')`). -/
def fileSection (file : Str) (content : Str) : Str :=
  "## Файл: ".data ++ file ++ "\n```\n".data
    ++ List.intercalate "\n".data ((jsSplit '\n' content).take 50)
    ++ "\n```\n\n".data

/-- The warning logged when a selected file cannot be read. -/
def warnMsg (file : Str) : Str := "⚠️ Не удалось прочитать: ".data ++ file

/-- One iteration of the digest loop: on a successful read append the file's
section to the context, on a failed read leave the context unchanged and log
a warning. -/
def digestStep (readFile : Str → Option Str) (acc : Str × List Str) (file : Str) :
    Str × List Str :=
  match readFile file with
  | some content => (acc.1 ++ fileSection file content, acc.2)
  | none => (acc.1, acc.2 ++ [warnMsg file])

/-- The digest loop of `analyzeProject`: starting from the header, fold
`digestStep` over `importantFiles.slice(0, 10)`.  Returns the final
`projectContext` together with the warnings logged along the way. -/
def buildDigest (readFile : Str → Option Str) (importantFiles : List Str) :
    Str × List Str :=
  (importantFiles.take 10).foldl (digestStep readFile) (digestHeader, [])

/-- The list of sections appearing in the digest, in order: one per
successfully read file among the first 10 collected. -/
def sectionsOf (readFile : Str → Option Str) (importantFiles : List Str) : List Str :=
  (importantFiles.take 10).filterMap (fun f => (readFile f).map (fileSection f))

/-- Observable effects of one `analyzeProject` run that reaches the external
call: the digest artifact's contents, the read warnings, whether the
external command was invoked, whether its failure was logged, and the report
artifact's contents (`none` when it was never written). -/
structure RunResult where
  digestFile : Str
  warnings : List Str
  execInvoked : Bool
  errorLogged : Bool
  reportFile : Option Str
deriving DecidableEq

/-- `analyzeProject`: collect files (a traversal error propagates out and
nothing is written), build and persist the digest, invoke the external
command on it; on process error log it and stop, on success persist stdout
verbatim as the report. -/
def analyzeProject (root : Entry) (projectPath : Str) (readFile : Str → Option Str)
    (execResult : Except Str Str) : Except Unit RunResult := do
  let importantFiles ← findImportantFiles root projectPath
  let built := buildDigest readFile importantFiles
  match execResult with
  | .error _ =>
      .ok { digestFile := built.1, warnings := built.2, execInvoked := true,
            errorLogged := true, reportFile := none }
  | .ok stdout =>
      .ok { digestFile := built.1, warnings := built.2, execInvoked := true,
            errorLogged := false, reportFile := some stdout }


/-! ### Lemmas about the scan -/

theorem scanList_ok_mem :
    ∀ (items : List (Str × Entry)) (cur : Str) (files : List Str),
      scanList items cur = .ok files → ∀ p ∈ files,
      ∃ (ds : List Str) (name : Str),
        (∀ d ∈ ds, ignoreDirs.contains d = false) ∧
        hasImportantExt name = true ∧
        p = pathJoin (ds.foldl pathJoin cur) name := by
  intro items cur
  induction items, cur using scanList.induct with
  | case1 cur =>
    intro files h p hp
    simp only [scanList] at h
    cases h
    simp at hp
  | case2 item rest cur =>
    intro files h
    simp [scanList] at h
  | case3 item rest cur children hcond ih =>
    intro files h p hp
    simp only [scanList] at h
    rw [if_pos hcond] at h
    exact ih files h p hp
  | case4 item rest cur fp children hcond ihc ihr =>
    intro files h p hp
    simp only [scanList] at h
    rw [if_neg hcond] at h
    rcases h1 : scanList children (pathJoin cur item) with e | sub
    · rw [h1] at h; cases h
    rcases h2 : scanList rest cur with e | rst
    · rw [h1, h2] at h; cases h
    rw [h1, h2] at h
    cases h
    rcases List.mem_append.mp hp with hps | hpr
    · rcases ihc sub h1 p hps with ⟨ds, name, hds, hext, hpd⟩
      refine ⟨item :: ds, name, ?_, hext, by simpa using hpd⟩
      intro d hd
      rcases List.mem_cons.mp hd with rfl | hd
      · exact Bool.eq_false_iff.mpr hcond
      · exact hds d hd
    · exact ihr rst h2 p hpr
  | case5 item rest cur hcond ih =>
    intro files h p hp
    simp only [scanList] at h
    rw [if_pos hcond] at h
    exact ih files h p hp
  | case6 item rest cur hcond =>
    intro files h
    simp only [scanList] at h
    rw [if_neg hcond] at h
    cases h
  | case7 item rest cur content hcond ih =>
    intro files h p hp
    simp only [scanList] at h
    rw [if_pos hcond] at h
    rcases h2 : scanList rest cur with e | rst
    · rw [h2] at h; cases h
    rw [h2] at h
    cases h
    rcases List.mem_cons.mp hp with rfl | hpr
    · exact ⟨[], item, by simp, hcond, rfl⟩
    · exact ih rst h2 p hpr
  | case8 item rest cur content hcond ih =>
    intro files h p hp
    simp only [scanList] at h
    rw [if_neg hcond] at h
    exact ih files h p hp

theorem foldl_pathJoin_length_le (ds : List Str) :
    ∀ cur : Str, cur.length ≤ (ds.foldl pathJoin cur).length := by
  induction ds with
  | nil => intro cur; simp
  | cons d t ih =>
    intro cur
    calc cur.length ≤ (pathJoin cur d).length := by simp [pathJoin]
    _ ≤ ((d :: t).foldl pathJoin cur).length := by simpa using ih (pathJoin cur d)

theorem scanList_ok_length (items : List (Str × Entry)) (cur : Str) (files : List Str)
    (h : scanList items cur = .ok files) : ∀ p ∈ files, cur.length < p.length := by
  intro p hp
  rcases scanList_ok_mem items cur files h p hp with ⟨ds, name, _, _, hpd⟩
  have hb := foldl_pathJoin_length_le ds cur
  subst hpd
  simp only [pathJoin, List.length_append, List.length_cons, List.length_nil]
  omega

theorem scanList_ok_shape :
    ∀ (items : List (Str × Entry)) (cur : Str) (files : List Str),
      scanList items cur = .ok files → ∀ p ∈ files,
      ∃ (n : Str) (e : Entry), (n, e) ∈ items ∧
        ((∃ c, e = Entry.file c ∧ p = pathJoin cur n) ∨
         (∃ (ch : List (Str × Entry)) (t : Str),
            e = Entry.dir ch ∧ p = pathJoin cur n ++ '/' :: t)) := by
  intro items cur
  induction items, cur using scanList.induct with
  | case1 cur =>
    intro files h p hp
    simp only [scanList] at h
    cases h
    simp at hp
  | case2 item rest cur =>
    intro files h
    simp [scanList] at h
  | case3 item rest cur children hcond ih =>
    intro files h p hp
    simp only [scanList] at h
    rw [if_pos hcond] at h
    rcases ih files h p hp with ⟨n, e, hmem, hcase⟩
    exact ⟨n, e, List.mem_cons_of_mem _ hmem, hcase⟩
  | case4 item rest cur fp children hcond ihc ihr =>
    intro files h p hp
    simp only [scanList] at h
    rw [if_neg hcond] at h
    rcases h1 : scanList children (pathJoin cur item) with e | sub
    · rw [h1] at h; cases h
    rcases h2 : scanList rest cur with e | rst
    · rw [h1, h2] at h; cases h
    rw [h1, h2] at h
    cases h
    rcases List.mem_append.mp hp with hps | hpr
    · rcases ihc sub h1 p hps with ⟨n, e, _, hcase⟩
      refine ⟨item, Entry.dir children, List.mem_cons_self _ _, Or.inr ?_⟩
      have hfp : fp = pathJoin cur item := rfl
      rcases hcase with ⟨c, _, hpd⟩ | ⟨ch, t, _, hpd⟩
      · rw [hfp] at hpd
        exact ⟨children, n, rfl, by simpa [pathJoin, List.append_assoc] using hpd⟩
      · rw [hfp] at hpd
        exact ⟨children, n ++ '/' :: t, rfl,
          by simpa [pathJoin, List.append_assoc] using hpd⟩
    · rcases ihr rst h2 p hpr with ⟨n, e, hmem, hcase⟩
      exact ⟨n, e, List.mem_cons_of_mem _ hmem, hcase⟩
  | case5 item rest cur hcond ih =>
    intro files h p hp
    simp only [scanList] at h
    rw [if_pos hcond] at h
    rcases ih files h p hp with ⟨n, e, hmem, hcase⟩
    exact ⟨n, e, List.mem_cons_of_mem _ hmem, hcase⟩
  | case6 item rest cur hcond =>
    intro files h
    simp only [scanList] at h
    rw [if_neg hcond] at h
    cases h
  | case7 item rest cur content hcond ih =>
    intro files h p hp
    simp only [scanList] at h
    rw [if_pos hcond] at h
    rcases h2 : scanList rest cur with e | rst
    · rw [h2] at h; cases h
    rw [h2] at h
    cases h
    rcases List.mem_cons.mp hp with rfl | hpr
    · exact ⟨item, Entry.file content, List.mem_cons_self _ _,
        Or.inl ⟨content, rfl, rfl⟩⟩
    · rcases ih rst h2 p hpr with ⟨n, e, hmem, hcase⟩
      exact ⟨n, e, List.mem_cons_of_mem _ hmem, hcase⟩
  | case8 item rest cur content hcond ih =>
    intro files h p hp
    simp only [scanList] at h
    rw [if_neg hcond] at h
    rcases ih files h p hp with ⟨n, e, hmem, hcase⟩
    exact ⟨n, e, List.mem_cons_of_mem _ hmem, hcase⟩

theorem scanList_error_iff :
    ∀ (items : List (Str × Entry)) (cur : Str),
      scanList items cur = .error () ↔ listingError items = true := by
  intro items cur
  induction items, cur using scanList.induct with
  | case1 cur =>
    simp [scanList, listingError]
  | case2 item rest cur =>
    simp [scanList, listingError]
  | case3 item rest cur children hcond ih =>
    have hmem : item ∈ ignoreDirs := by simpa using hcond
    simp only [scanList, listingError]
    rw [if_pos hcond]
    simp [hmem, ih]
  | case4 item rest cur fp children hcond ihc ihr =>
    have hnmem : item ∉ ignoreDirs := by simpa using hcond
    simp only [scanList, listingError]
    rw [if_neg hcond]
    rcases h1 : scanList children (pathJoin cur item) with e | sub
    · have hc : listingError children = true := ihc.mp (by simpa using h1)
      constructor
      · intro _; simp [hnmem, hc]
      · intro _; rfl
    · have hc : listingError children = false := by
        rcases hcl : listingError children
        · rfl
        · rw [← ihc] at hcl; rw [h1] at hcl; cases hcl
      rcases h2 : scanList rest cur with e | rst
      · have hr : listingError rest = true := ihr.mp (by simpa using h2)
        constructor
        · intro _; simp [hr]
        · intro _; rfl
      · have hr : listingError rest = false := by
          rcases hrl : listingError rest
          · rfl
          · rw [← ihr] at hrl; rw [h2] at hrl; cases hrl
        constructor
        · intro hco; cases hco
        · intro hco; simp [hnmem, hc, hr] at hco
  | case5 item rest cur hcond ih =>
    have hmem : item ∈ ignoreDirs := by simpa using hcond
    simp only [scanList, listingError]
    rw [if_pos hcond]
    simp [hmem, ih]
  | case6 item rest cur hcond =>
    have hnmem : item ∉ ignoreDirs := by simpa using hcond
    simp only [scanList, listingError]
    rw [if_neg hcond]
    simp [hnmem]
  | case7 item rest cur content hcond ih =>
    simp only [scanList, listingError]
    rw [if_pos hcond]
    rcases h2 : scanList rest cur with e | rst
    · have hr : listingError rest = true := ih.mp (by simpa using h2)
      constructor
      · intro _; simp [hr]
      · intro _; rfl
    · have hr : listingError rest = false := by
        rcases hrl : listingError rest
        · rfl
        · rw [← ih] at hrl; rw [h2] at hrl; cases hrl
      constructor
      · intro hco; cases hco
      · intro hco; simp [hr] at hco
  | case8 item rest cur content hcond ih =>
    simp only [scanList, listingError]
    rw [if_neg hcond]
    simp [ih]

/-! ### Lemmas about the digest loop -/

theorem foldl_digestStep_fst (rf : Str → Option Str) :
    ∀ (l : List Str) (acc : Str × List Str),
      (l.foldl (digestStep rf) acc).1
        = acc.1 ++ (l.filterMap (fun f => (rf f).map (fileSection f))).flatten := by
  intro l
  induction l with
  | nil => intro acc; simp
  | cons f t ih =>
    intro acc
    cases h : rf f with
    | none => simp [digestStep, h, ih]
    | some c => simp [digestStep, h, ih]

theorem foldl_digestStep_snd (rf : Str → Option Str) :
    ∀ (l : List Str) (acc : Str × List Str),
      (l.foldl (digestStep rf) acc).2
        = acc.2 ++ (l.filter (fun f => (rf f).isNone)).map warnMsg := by
  intro l
  induction l with
  | nil => intro acc; simp
  | cons f t ih =>
    intro acc
    cases h : rf f with
    | none => simp [digestStep, h, ih]
    | some c => simp [digestStep, h, ih]

/-- Claim C2: the digest built by `analyzeProject` is the fixed header
followed by the concatenation of one section per successfully read file
among the first 10 collected entries, in collector order; there are at most
10 sections, and each section's fenced content is a prefix of the file's
lines of length at most 50. -/
theorem buildDigest_sections_bounded (rf : Str → Option Str) (files : List Str) :
    (buildDigest rf files).1 = digestHeader ++ (sectionsOf rf files).flatten ∧
    (sectionsOf rf files).length ≤ 10 ∧
    ∀ s ∈ sectionsOf rf files, ∃ (f content : Str) (ls : List Str),
      f ∈ files.take 10 ∧ rf f = some content ∧
      ls <+: jsSplit '\n' content ∧ ls.length ≤ 50 ∧
      s = "## Файл: ".data ++ f ++ "\n```\n".data
            ++ List.intercalate "\n".data ls ++ "\n```\n\n".data := by
  refine ⟨?_, ?_, ?_⟩
  · simpa [buildDigest, sectionsOf] using
      foldl_digestStep_fst rf (files.take 10) (digestHeader, [])
  · exact le_trans (List.length_filterMap_le _ _) (List.length_take_le 10 files)
  · intro s hs
    rcases List.mem_filterMap.mp hs with ⟨f, hf, hfs⟩
    cases hrf : rf f with
    | none => rw [hrf] at hfs; cases hfs
    | some c =>
      rw [hrf] at hfs
      refine ⟨f, c, (jsSplit '\n' c).take 50, hf, hrf, ?_, ?_, ?_⟩
      · exact ⟨(jsSplit '\n' c).drop 50, List.take_append_drop 50 _⟩
      · exact List.length_take_le 50 _
      · cases hfs
        rfl

/-- Claim C3: if reading one selected file fails, the loop logs a warning
for it and continues: every other selected file that reads successfully
still has its section in the digest. -/
theorem buildDigest_read_failure_isolated (rf : Str → Option Str) (files : List Str)
    (f g c : Str) (hf : f ∈ files.take 10) (hrf : rf f = none)
    (hg : g ∈ files.take 10) (hgc : rf g = some c) :
    warnMsg f ∈ (buildDigest rf files).2 ∧
    fileSection g c ∈ sectionsOf rf files ∧
    (buildDigest rf files).1 = digestHeader ++ (sectionsOf rf files).flatten := by
  refine ⟨?_, ?_, ?_⟩
  · have hsnd := foldl_digestStep_snd rf (files.take 10) (digestHeader, [])
    have : (buildDigest rf files).2
        = ((files.take 10).filter (fun f => (rf f).isNone)).map warnMsg := by
      simpa [buildDigest] using hsnd
    rw [this]
    exact List.mem_map.mpr ⟨f, List.mem_filter.mpr ⟨hf, by simp [hrf]⟩, rfl⟩
  · exact List.mem_filterMap.mpr ⟨g, hg, by simp [hgc]⟩
  · simpa [buildDigest, sectionsOf] using
      foldl_digestStep_fst rf (files.take 10) (digestHeader, [])

/-- Claim C8: appending a section is atomic with respect to read failure:
when the read of a selected file fails, one loop iteration leaves the digest
buffer exactly as it was — no header or partial section for that file is
appended. -/
theorem digestStep_read_failure_atomic (rf : Str → Option Str)
    (acc : Str × List Str) (f : Str) (h : rf f = none) :
    (digestStep rf acc f).1 = acc.1 := by
  simp [digestStep, h]

/-- Claim C9: when the collector returns an empty list, the run still writes
the digest artifact, whose contents are exactly the fixed header, and still
invokes the external process. -/
theorem analyzeProject_empty_collection (root : Entry) (projectPath : Str)
    (rf : Str → Option Str) (execResult : Except Str Str)
    (h : findImportantFiles root projectPath = .ok []) :
    ∃ r, analyzeProject root projectPath rf execResult = .ok r ∧
      r.digestFile = "# Анализ проекта\n\n".data ∧ r.execInvoked = true := by
  cases execResult with
  | error msg =>
    refine ⟨{ digestFile := digestHeader, warnings := [], execInvoked := true,
              errorLogged := true, reportFile := none }, ?_, rfl, rfl⟩
    unfold analyzeProject
    rw [h]
    rfl
  | ok stdout =>
    refine ⟨{ digestFile := digestHeader, warnings := [], execInvoked := true,
              errorLogged := false, reportFile := some stdout }, ?_, rfl, rfl⟩
    unfold analyzeProject
    rw [h]
    rfl

/-- Claim C4: when the external process invocation fails, the run logs the
error, the reporting step stops, and the report artifact is never written
(the digest artifact, written before the invocation, is unaffected). -/
theorem analyzeProject_exec_failure (root : Entry) (projectPath : Str)
    (rf : Str → Option Str) (msg : Str) (files : List Str)
    (h : findImportantFiles root projectPath = .ok files) :
    analyzeProject root projectPath rf (.error msg)
      = .ok { digestFile := (buildDigest rf files).1,
              warnings := (buildDigest rf files).2,
              execInvoked := true, errorLogged := true, reportFile := none } := by
  unfold analyzeProject
  rw [h]
  rfl

/-- Claim C5: when the external process succeeds, the report artifact's
contents are exactly the captured stdout, with no transformation. -/
theorem analyzeProject_exec_success (root : Entry) (projectPath : Str)
    (rf : Str → Option Str) (stdout : Str) (files : List Str)
    (h : findImportantFiles root projectPath = .ok files) :
    analyzeProject root projectPath rf (.ok stdout)
      = .ok { digestFile := (buildDigest rf files).1,
              warnings := (buildDigest rf files).2,
              execInvoked := true, errorLogged := false,
              reportFile := some stdout } := by
  unfold analyzeProject
  rw [h]
  rfl

theorem suffix_pathJoin (a b : Str) : b <:+ pathJoin a b :=
  ⟨a ++ [ '/' ], by simp [pathJoin]⟩

/-- Claim C1: every path returned by `findImportantFiles` is the root joined
with a chain of descended directory names, none of which is deny-listed
(deny-listed directories are never descended into), ending in a file name
with an allow-listed extension; in particular every returned path ends with
an allow-listed extension. -/
theorem findImportantFiles_respects_filters (root : Entry) (dir : Str)
    (files : List Str) (h : findImportantFiles root dir = .ok files) :
    ∀ p ∈ files,
      (∃ (ds : List Str) (name : Str),
          (∀ d ∈ ds, ignoreDirs.contains d = false) ∧
          hasImportantExt name = true ∧
          p = pathJoin (ds.foldl pathJoin dir) name) ∧
      ∃ ext ∈ importantExtensions, ext <:+ p := by
  intro p hp
  cases root with
  | file c => exact absurd h (by simp [findImportantFiles])
  | dirFail => exact absurd h (by simp [findImportantFiles])
  | statFail => exact absurd h (by simp [findImportantFiles])
  | dir children =>
    have hscan : scanList children dir = .ok files := h
    rcases scanList_ok_mem children dir files hscan p hp with
      ⟨ds, name, hds, hext, hpd⟩
    refine ⟨⟨ds, name, hds, hext, hpd⟩, ?_⟩
    rcases List.any_eq_true.mp hext with ⟨ext, hmem, hsuf⟩
    refine ⟨ext, hmem, ?_⟩
    have h1 : ext <:+ name := List.isSuffixOf_iff_suffix.mp hsuf
    have h2 : name <:+ p := hpd ▸ suffix_pathJoin _ _
    exact h1.trans h2

/-- Claim C6: a `stat` or `readdir` failure anywhere the scan visits makes
`findImportantFiles` fail as a whole — the error propagates out and no
partial list is returned.  `rootError` characterises exactly when this
happens. -/
theorem findImportantFiles_error_aborts (root : Entry) (dir : Str) :
    (findImportantFiles root dir = .error () ↔ rootError root = true) ∧
    (rootError root = true → ∀ files, findImportantFiles root dir ≠ .ok files) := by
  have hiff : findImportantFiles root dir = .error () ↔ rootError root = true := by
    cases root with
    | dir children =>
      simpa [findImportantFiles, rootError] using scanList_error_iff children dir
    | file c => simp [findImportantFiles, rootError]
    | dirFail => simp [findImportantFiles, rootError]
    | statFail => simp [findImportantFiles, rootError]
  refine ⟨hiff, ?_⟩
  intro hre files hok
  have herr := hiff.mpr hre
  rw [hok] at herr
  cases herr

theorem keys_nodup_val_unique :
    ∀ {l : List (Str × Entry)}, (l.map Prod.fst).Nodup →
      ∀ {a : Str} {b c : Entry}, (a, b) ∈ l → (a, c) ∈ l → b = c := by
  intro l
  induction l with
  | nil => intro _ a b c h1; cases h1
  | cons x t ih =>
    intro hnd a b c h1 h2
    rw [List.map_cons, List.nodup_cons] at hnd
    obtain ⟨hx, ht⟩ := hnd
    rcases List.mem_cons.mp h1 with h1 | h1 <;> rcases List.mem_cons.mp h2 with h2 | h2
    · simpa using h1.trans h2.symm
    · rw [← h1] at hx
      exact absurd (List.mem_map.mpr ⟨(a, c), h2, rfl⟩) hx
    · rw [← h2] at hx
      exact absurd (List.mem_map.mpr ⟨(a, b), h1, rfl⟩) hx
    · exact ih ht h1 h2

/-- Claim C10: the deny-list is consulted only for directory entries and the
extension allow-list only for non-directory entries.  First part: a regular
file whose name is deny-listed is handled purely by the extension rule — it
is pushed iff its name has an allow-listed extension.  Second part: a
directory entry is never itself pushed onto the result list, even when its
name ends with an allow-listed extension (for listings with real-filesystem
names: distinct within one directory and slash-free). -/
theorem scanList_deny_only_dirs_allow_only_files :
    (∀ (item : Str) (c : Option Str) (rest : List (Str × Entry)) (cur : Str),
        ignoreDirs.contains item = true →
        scanList ((item, Entry.file c) :: rest) cur
          = if hasImportantExt item = true
            then Except.map (fun fs => pathJoin cur item :: fs) (scanList rest cur)
            else scanList rest cur) ∧
    (∀ (item : Str) (ch l₁ l₂ : List (Str × Entry)) (cur : Str) (files : List Str),
        hasImportantExt item = true → '/' ∉ item →
        ((l₁ ++ (item, Entry.dir ch) :: l₂).map Prod.fst).Nodup →
        scanList (l₁ ++ (item, Entry.dir ch) :: l₂) cur = .ok files →
        pathJoin cur item ∉ files) := by
  constructor
  · intro item c rest cur _
    by_cases hext : hasImportantExt item = true
    · rw [if_pos hext]
      simp only [scanList]
      rw [if_pos hext]
      cases h2 : scanList rest cur with
      | error e => rfl
      | ok rst => rfl
    · rw [if_neg hext]
      simp only [scanList]
      rw [if_neg hext]
  · intro item ch l₁ l₂ cur files hext hslash hnd hok hmem
    rcases scanList_ok_shape _ _ _ hok _ hmem with ⟨n, e, hin, hcase⟩
    rcases hcase with ⟨c, hfile, hpd⟩ | ⟨ch', t, hdir, hpd⟩
    · have hn : item = n := by simpa [pathJoin] using hpd
      subst hn
      subst hfile
      have hself : (item, Entry.dir ch) ∈ l₁ ++ (item, Entry.dir ch) :: l₂ :=
        List.mem_append_right _ (List.mem_cons_self _ _)
      have hcontra := keys_nodup_val_unique hnd hin hself
      cases hcontra
    · have hitem : item = n ++ '/' :: t := by
        simpa [pathJoin, List.append_assoc] using hpd
      apply hslash
      rw [hitem]
      exact List.mem_append_right _ (List.mem_cons_self _ _)

/-! ### Round-trip lemmas about line splitting -/

theorem jsSplit_ne_nil (sep : Char) (l : Str) : jsSplit sep l ≠ [] := by
  induction l with
  | nil => simp [jsSplit]
  | cons c cs ih =>
    simp only [jsSplit]
    rcases h : jsSplit sep cs with _ | ⟨line, rest⟩
    · simp
    · by_cases hc : c = sep
      · simp [hc]
      · simp [hc]

theorem jsSplit_no_sep (sep : Char) (l : Str) (h : sep ∉ l) : jsSplit sep l = [l] := by
  induction l with
  | nil => simp [jsSplit]
  | cons c cs ih =>
    have hc : c ≠ sep := fun he => h (he ▸ List.mem_cons_self c cs)
    have hcs : sep ∉ cs := fun hm => h (List.mem_cons_of_mem _ hm)
    simp only [jsSplit, ih hcs]
    simp [hc]

theorem jsSplit_append_sep (sep : Char) (x rest : Str) (h : sep ∉ x) :
    jsSplit sep (x ++ sep :: rest) = x :: jsSplit sep rest := by
  induction x with
  | nil =>
    simp only [List.nil_append, jsSplit]
    rcases h2 : jsSplit sep rest with _ | ⟨line, rl⟩
    · exact absurd h2 (jsSplit_ne_nil sep rest)
    · simp
  | cons c cs ih =>
    have hc : c ≠ sep := fun he => h (he ▸ List.mem_cons_self c cs)
    have hcs : sep ∉ cs := fun hm => h (List.mem_cons_of_mem _ hm)
    simp only [List.cons_append, jsSplit, List.append_eq]
    rw [ih hcs]
    simp [hc]

theorem jsSplit_intercalate (sep : Char) :
    ∀ (lines : List Str), lines ≠ [] → (∀ l ∈ lines, sep ∉ l) →
      jsSplit sep (List.intercalate [sep] lines) = lines := by
  intro lines
  induction lines with
  | nil => intro h; cases h rfl
  | cons x t ih =>
    intro _ hall
    cases t with
    | nil =>
      have hx : sep ∉ x := hall x (List.mem_cons_self _ _)
      simp [List.intercalate, jsSplit_no_sep sep x hx]
    | cons y tt =>
      have hx : sep ∉ x := hall x (List.mem_cons_self _ _)
      have hint : List.intercalate [sep] (x :: y :: tt)
          = x ++ sep :: List.intercalate [sep] (y :: tt) := by
        simp [List.intercalate, List.intersperse_cons_cons]
      rw [hint, jsSplit_append_sep sep x _ hx,
        ih (by simp) (fun l hl => hall l (List.mem_cons_of_mem _ hl))]

/-! ### The concrete three-file example -/

/-- An 800-line file body: 800 lines of `x`. -/
def c7AContent : Str := List.intercalate "\n".data (List.replicate 800 "x".data)

/-- A 10-line file body: 10 lines of `y`. -/
def c7BContent : Str := List.intercalate "\n".data (List.replicate 10 "y".data)

/-- A root directory holding exactly `a.js` (800 lines), `b.py` (10 lines)
and `c.txt` (irrelevant extension). -/
def c7Root : Entry := Entry.dir
  [("a.js".data, Entry.file (some c7AContent)),
   ("b.py".data, Entry.file (some c7BContent)),
   ("c.txt".data, Entry.file (some "plain text".data))]

/-- The matching read oracle for that root. -/
def c7Read : Str → Option Str := fun p =>
  if p = "./a.js".data then some c7AContent
  else if p = "./b.py".data then some c7BContent
  else if p = "./c.txt".data then some "plain text".data
  else none

theorem c7_split_a : jsSplit '\n' c7AContent = List.replicate 800 "x".data :=
  jsSplit_intercalate '\n' (List.replicate 800 "x".data)
    (by
      intro h
      have hlen := congrArg List.length h
      simp only [List.length_replicate, List.length_nil] at hlen
      exact absurd hlen (by norm_num))
    (fun l hl => by rw [List.eq_of_mem_replicate hl]; decide)

theorem c7_split_b : jsSplit '\n' c7BContent = List.replicate 10 "y".data :=
  jsSplit_intercalate '\n' (List.replicate 10 "y".data)
    (by
      intro h
      have hlen := congrArg List.length h
      simp only [List.length_replicate, List.length_nil] at hlen
      exact absurd hlen (by norm_num))
    (fun l hl => by rw [List.eq_of_mem_replicate hl]; decide)

/-- Claim C7: for a root holding exactly `a.js` (800 lines), `b.py`
(10 lines) and `c.txt`, the collector returns exactly the two source files,
and the digest is the header followed by a section for `a.js` whose fenced
content is its first 50 lines only and a section for `b.py` whose fenced
content is the whole file — and no section for `c.txt`. -/
theorem analyzeProject_three_file_example :
    findImportantFiles c7Root ".".data = .ok ["./a.js".data, "./b.py".data] ∧
    (jsSplit '\n' c7AContent).length = 800 ∧
    (jsSplit '\n' c7BContent).length = 10 ∧
    sectionsOf c7Read ["./a.js".data, "./b.py".data]
      = [fileSection "./a.js".data c7AContent, fileSection "./b.py".data c7BContent] ∧
    (buildDigest c7Read ["./a.js".data, "./b.py".data]).1
      = digestHeader ++ fileSection "./a.js".data c7AContent
          ++ fileSection "./b.py".data c7BContent ∧
    fileSection "./a.js".data c7AContent
      = "## Файл: ".data ++ "./a.js".data ++ "\n```\n".data
          ++ List.intercalate "\n".data (List.replicate 50 "x".data)
          ++ "\n```\n\n".data ∧
    fileSection "./b.py".data c7BContent
      = "## Файл: ".data ++ "./b.py".data ++ "\n```\n".data
          ++ c7BContent ++ "\n```\n\n".data := by
  have hra : c7Read "./a.js".data = some c7AContent := by simp [c7Read]
  have hrb : c7Read "./b.py".data = some c7BContent := by simp [c7Read]
  have htakeA : (jsSplit '\n' c7AContent).take 50 = List.replicate 50 "x".data := by
    rw [c7_split_a, List.take_replicate]
    norm_num
  have htakeB : (jsSplit '\n' c7BContent).take 50 = List.replicate 10 "y".data := by
    rw [c7_split_b, List.take_replicate]
    norm_num
  refine ⟨?_, ?_, ?_, ?_, ?_, ?_, ?_⟩
  · simp only [c7Root, findImportantFiles]
    simp [scanList, pathJoin]
    decide
  · rw [c7_split_a, List.length_replicate]
  · rw [c7_split_b, List.length_replicate]
  · simp [sectionsOf, hra, hrb]
  · have hfst := foldl_digestStep_fst c7Read
      (List.take 10 ["./a.js".data, "./b.py".data]) (digestHeader, [])
    simp only [buildDigest] at *
    rw [hfst]
    simp [hra, hrb, List.append_assoc]
  · simp only [fileSection, htakeA]
  · simp only [fileSection, htakeB]
    rfl

/-! ### Concrete witnesses -/

theorem findImportantFiles_respects_filters_witness :
    (∃ (ds : List Str) (name : Str),
        (∀ d ∈ ds, ignoreDirs.contains d = false) ∧
        hasImportantExt name = true ∧
        "./a.js".data = pathJoin (ds.foldl pathJoin ".".data) name) ∧
    ∃ ext ∈ importantExtensions, ext <:+ "./a.js".data := by
  have h : findImportantFiles (Entry.dir [("a.js".data, Entry.file none),
      ("node_modules".data, Entry.dir [("b.js".data, Entry.file none)])]) ".".data
      = .ok ["./a.js".data] := by
    simp [findImportantFiles, scanList, pathJoin]
    decide
  exact findImportantFiles_respects_filters _ _ _ h "./a.js".data (by decide)

theorem buildDigest_sections_bounded_witness :
    ∃ (f content : Str) (ls : List Str),
      f ∈ (["f.js".data] : List Str).take 10 ∧
      (fun _ => some "a".data : Str → Option Str) f = some content ∧
      ls <+: jsSplit '\n' content ∧ ls.length ≤ 50 ∧
      fileSection "f.js".data "a".data
        = "## Файл: ".data ++ f ++ "\n```\n".data
            ++ List.intercalate "\n".data ls ++ "\n```\n\n".data :=
  (buildDigest_sections_bounded (fun _ => some "a".data) ["f.js".data]).2.2
    (fileSection "f.js".data "a".data) (by decide)

theorem buildDigest_read_failure_isolated_witness :
    warnMsg "bad.js".data
        ∈ (buildDigest (fun p => if p = "bad.js".data then none else some "y".data)
            ["bad.js".data, "ok.py".data]).2 ∧
    fileSection "ok.py".data "y".data
        ∈ sectionsOf (fun p => if p = "bad.js".data then none else some "y".data)
            ["bad.js".data, "ok.py".data] ∧
    (buildDigest (fun p => if p = "bad.js".data then none else some "y".data)
        ["bad.js".data, "ok.py".data]).1
      = digestHeader
          ++ (sectionsOf (fun p => if p = "bad.js".data then none else some "y".data)
                ["bad.js".data, "ok.py".data]).flatten :=
  buildDigest_read_failure_isolated _ _ "bad.js".data "ok.py".data "y".data
    (by decide) (by decide) (by decide) (by decide)

theorem analyzeProject_exec_failure_witness :
    analyzeProject (Entry.dir []) ".".data (fun _ => none) (.error "boom".data)
      = .ok { digestFile := (buildDigest (fun _ => none) []).1,
              warnings := (buildDigest (fun _ => none) []).2,
              execInvoked := true, errorLogged := true, reportFile := none } :=
  analyzeProject_exec_failure _ _ _ _ [] (by simp [findImportantFiles, scanList])

theorem analyzeProject_exec_success_witness :
    analyzeProject (Entry.dir []) ".".data (fun _ => none) (.ok "OK".data)
      = .ok { digestFile := (buildDigest (fun _ => none) []).1,
              warnings := (buildDigest (fun _ => none) []).2,
              execInvoked := true, errorLogged := false,
              reportFile := some "OK".data } :=
  analyzeProject_exec_success _ _ _ _ [] (by simp [findImportantFiles, scanList])

theorem findImportantFiles_error_aborts_witness :
    findImportantFiles (Entry.dir [("x.js".data, Entry.statFail)]) ".".data
        = .error () ∧
    findImportantFiles (Entry.dir [("x.js".data, Entry.statFail)]) ".".data
        ≠ .ok [] := by
  have ha := findImportantFiles_error_aborts
    (Entry.dir [("x.js".data, Entry.statFail)]) ".".data
  have hre : rootError (Entry.dir [("x.js".data, Entry.statFail)]) = true := by
    simp [rootError, listingError]
  exact ⟨ha.1.mpr hre, ha.2 hre []⟩

theorem digestStep_read_failure_atomic_witness :
    (digestStep (fun _ => none) (digestHeader, []) "a.js".data).1 = digestHeader :=
  digestStep_read_failure_atomic (fun _ => none) (digestHeader, []) "a.js".data rfl

theorem analyzeProject_empty_collection_witness :
    ∃ r, analyzeProject (Entry.dir []) ".".data (fun _ => none) (.ok "OK".data)
        = .ok r ∧
      r.digestFile = "# Анализ проекта\n\n".data ∧ r.execInvoked = true :=
  analyzeProject_empty_collection _ _ _ _ (by simp [findImportantFiles, scanList])

theorem scanList_deny_only_dirs_allow_only_files_witness :
    (scanList [("build".data, Entry.file none)] ".".data
      = if hasImportantExt "build".data = true
        then Except.map (fun fs => pathJoin ".".data "build".data :: fs)
              (scanList [] ".".data)
        else scanList [] ".".data) ∧
    pathJoin ".".data "dir.js".data ∉ ([] : List Str) := by
  constructor
  · exact scanList_deny_only_dirs_allow_only_files.1 "build".data none [] ".".data
      (by decide)
  · exact scanList_deny_only_dirs_allow_only_files.2 "dir.js".data [] [] [] ".".data []
      (by decide) (by decide) (by decide)
      (by simp [scanList, pathJoin]; decide)
